import Mathlib

/-!
Shallow embedding of `src/models/bert_models.py`: three BERT task heads
(sequence classification, sequence labeling, question answering) layered on an
external transformer encoder.  Tensors are nested lists over a linear ordered
field; the encoder is an abstract collaborator; dropout takes an explicit
keep-mask standing for the library's Bernoulli draws; `torch.argmax` and
`F.softmax` are modelled from their documented semantics (first maximal index,
`exp x / Σ exp`).
-/

namespace BertModels

/-- Input triple of a head: token indices, position indices, token-type
indices, each of shape `(batch_size, seq_len)`. -/
def Input : Type := List (List Nat) × List (List Nat) × List (List Nat)

/-- Dot product of two vectors, truncating at the shorter one. -/
def dot {α : Type} [LinearOrderedField α] (w v : List α) : α :=
  ((w.zip v).map (fun p => p.1 * p.2)).sum

/-- Parameters of `nn.Linear(in_features, out_features)`: `weight` has one row
per output unit, `bias` one entry per output unit. -/
structure Linear (α : Type) where
  weight : List (List α)
  bias : List α

/-- Application of a linear layer to a single vector: `y_i = w_i · v + b_i`. -/
def linearApply {α : Type} [LinearOrderedField α] (lin : Linear α) (v : List α) : List α :=
  (lin.weight.zip lin.bias).map (fun wb => dot wb.1 v + wb.2)

/-- Modelled from the spec: `nn.Dropout(p)` applied to one vector.  The
library's Bernoulli draws are supplied as an explicit keep-mask; in training
mode a kept entry is rescaled by `1 / (1 - p)` and a dropped entry becomes `0`;
in evaluation mode the vector passes through unchanged. -/
def dropoutVec {α : Type} [LinearOrderedField α] (p : α) (training : Bool)
    (keep : Nat → Bool) (v : List α) : List α :=
  v.enum.map (fun ix => if training then (if keep ix.1 then ix.2 / (1 - p) else 0) else ix.2)

/-- Modelled from the spec: the external encoder collaborator (`BertModel` from
the `bert` module, not part of this source file).  It exposes a `hidden_size`
and maps the three index matrices to a per-token representation of shape
`(batch, seq_len, hidden_size)` and a pooled representation of shape
`(batch, hidden_size)`. -/
structure BertModel (α : Type) where
  hidden_size : Nat
  apply : List (List Nat) → List (List Nat) → List (List Nat) →
    List (List (List α)) × List (List α)

/-- Modelled from the spec: the encoder configuration object, built from an
external JSON description. -/
structure BertConfig where
  hidden_size : Nat
deriving DecidableEq

/-- Modelled from the spec: the external library operations a head constructor
calls — building an encoder from a configuration, loading a TensorFlow
checkpoint into it (the absent-path case is the encoder's business), and
initialising a linear layer of given in/out dimensions. -/
structure EncoderLib (α : Type) where
  ofConfig : BertConfig → BertModel α
  fromTfCheckpoint : BertModel α → Option String → BertModel α
  mkLinear : Nat → Nat → Linear α

/-- Calls a head constructor makes on the external encoder library, recorded as
an explicit trace. -/
inductive EncoderCall where
  | ofConfig (config : BertConfig)
  | fromTfCheckpoint (path : Option String)
deriving DecidableEq

/-- Modelled from the documented semantics of `torch.argmax(·, dim=-1)`: the
index of the first occurrence of the maximum value (0 on the empty list, where
the library would raise). -/
def argmax {α : Type} [LinearOrder α] (l : List α) : Nat :=
  l.findIdx (fun x : α => decide (l.maximum ≤ (x : WithBot α)))

/-- Modelled from the documented semantics of `F.softmax(·, dim=-1)` on one
vector: `softmax(x)_i = exp x_i / Σ_j exp x_j`. -/
noncomputable def softmax (l : List ℝ) : List ℝ :=
  l.map (fun x => Real.exp x / (l.map Real.exp).sum)

/-- The `BertForSequenceClassification` head: an encoder, a linear projection
`hidden_size → num_classes`, a dropout layer (rate 0.1) and the module's
train/eval flag. -/
structure BertForSequenceClassification (α : Type) where
  num_classes : Nat
  bert_model : BertModel α
  linear : Linear α
  training : Bool

/-- Constructor of `BertForSequenceClassification`: builds the encoder from the
config, unconditionally loads the checkpoint path into it, and attaches
`nn.Linear(hidden_size, num_classes)`; the module starts in training mode.  The
returned trace records the calls made on the encoder library. -/
def BertForSequenceClassification.build {α : Type} (lib : EncoderLib α)
    (num_classes : Nat) (config : BertConfig) (tf_checkpoint_path : Option String := none) :
    BertForSequenceClassification α × List EncoderCall :=
  let bm := lib.fromTfCheckpoint (lib.ofConfig config) tf_checkpoint_path
  (⟨num_classes, bm, lib.mkLinear bm.hidden_size num_classes, true⟩,
    [EncoderCall.ofConfig config, EncoderCall.fromTfCheckpoint tf_checkpoint_path])

/-- Forward pass of the classification head: run the encoder, take the pooled
first-token output `(batch, hidden_size)`, apply dropout then the linear layer,
giving shape `(batch, num_classes)`. -/
def BertForSequenceClassification.forward {α : Type} [LinearOrderedField α]
    (m : BertForSequenceClassification α) (mask : Nat → Nat → Bool) (inp : Input) :
    List (List α) :=
  let pooled := (m.bert_model.apply inp.1 inp.2.1 inp.2.2).2
  pooled.enum.map (fun bv =>
    linearApply m.linear (dropoutVec (1 / 10) m.training (mask bv.1) bv.2))

/-- Prediction of the classification head:
`torch.argmax(F.softmax(forward(inp), dim=-1), dim=-1)`, one class index per
batch element. -/
noncomputable def BertForSequenceClassification.predict
    (m : BertForSequenceClassification ℝ) (mask : Nat → Nat → Bool) (inp : Input) :
    List Nat :=
  (m.forward mask inp).map (fun row => argmax (softmax row))

/-- The `BertForSequenceLabeling` head: same parameters as classification but
applied per token. -/
structure BertForSequenceLabeling (α : Type) where
  num_classes : Nat
  bert_model : BertModel α
  linear : Linear α
  training : Bool

/-- Constructor of `BertForSequenceLabeling`; identical wiring to the
classification head. -/
def BertForSequenceLabeling.build {α : Type} (lib : EncoderLib α)
    (num_classes : Nat) (config : BertConfig) (tf_checkpoint_path : Option String := none) :
    BertForSequenceLabeling α × List EncoderCall :=
  let bm := lib.fromTfCheckpoint (lib.ofConfig config) tf_checkpoint_path
  (⟨num_classes, bm, lib.mkLinear bm.hidden_size num_classes, true⟩,
    [EncoderCall.ofConfig config, EncoderCall.fromTfCheckpoint tf_checkpoint_path])

/-- Forward pass of the labeling head: run the encoder, take the full per-token
output `(batch, seq_len, hidden_size)`, apply dropout then the linear layer per
token, giving shape `(batch, seq_len, num_classes)`. -/
def BertForSequenceLabeling.forward {α : Type} [LinearOrderedField α]
    (m : BertForSequenceLabeling α) (mask : Nat → Nat → Nat → Bool) (inp : Input) :
    List (List (List α)) :=
  let sequence_output := (m.bert_model.apply inp.1 inp.2.1 inp.2.2).1
  sequence_output.enum.map (fun bt =>
    bt.2.enum.map (fun tv =>
      linearApply m.linear (dropoutVec (1 / 10) m.training (mask bt.1 tv.1) tv.2)))

/-- Prediction of the labeling head: softmax + argmax over the class axis for
every token, giving shape `(batch, seq_len)`. -/
noncomputable def BertForSequenceLabeling.predict
    (m : BertForSequenceLabeling ℝ) (mask : Nat → Nat → Nat → Bool) (inp : Input) :
    List (List Nat) :=
  (m.forward mask inp).map (fun toks => toks.map (fun row => argmax (softmax row)))

/-- The `BertForQuestionAnswering` head: an encoder and a linear projection
`hidden_size → 2`; no dropout layer is constructed (the source comments it
out). -/
structure BertForQuestionAnswering (α : Type) where
  bert_model : BertModel α
  linear : Linear α
  training : Bool

/-- Constructor of `BertForQuestionAnswering`: builds the encoder from the
config, unconditionally loads the checkpoint path into it, and attaches
`nn.Linear(hidden_size, 2)`. -/
def BertForQuestionAnswering.build {α : Type} (lib : EncoderLib α)
    (config : BertConfig) (tf_checkpoint_path : Option String := none) :
    BertForQuestionAnswering α × List EncoderCall :=
  let bm := lib.fromTfCheckpoint (lib.ofConfig config) tf_checkpoint_path
  (⟨bm, lib.mkLinear bm.hidden_size 2, true⟩,
    [EncoderCall.ofConfig config, EncoderCall.fromTfCheckpoint tf_checkpoint_path])

/-- Forward pass of the QA head: run the encoder, apply the 2-unit linear layer
to every token (no dropout), and return the channel-0 and channel-1 slices
`x[:, :, 0]` and `x[:, :, 1]`, each of shape `(batch, seq_len)`. -/
def BertForQuestionAnswering.forward {α : Type} [LinearOrderedField α]
    (m : BertForQuestionAnswering α) (inp : Input) :
    List (List α) × List (List α) :=
  let sequence_output := (m.bert_model.apply inp.1 inp.2.1 inp.2.2).1
  let x := sequence_output.map (fun toks => toks.map (fun v => linearApply m.linear v))
  (x.map (fun toks => toks.map (fun c => c.getD 0 0)),
   x.map (fun toks => toks.map (fun c => c.getD 1 0)))

/-- Prediction of the QA head: softmax + argmax independently over the
start-logit and end-logit rows, one start index and one end index per batch
element. -/
noncomputable def BertForQuestionAnswering.predict
    (m : BertForQuestionAnswering ℝ) (inp : Input) : List Nat × List Nat :=
  let scores := m.forward inp
  (scores.1.map (fun row => argmax (softmax row)),
   scores.2.map (fun row => argmax (softmax row)))

/-- Stateful view of the classification forward call: the method receives the
head (`self`) and hands back the output together with the post-call head
state. -/
def BertForSequenceClassification.forwardS {α : Type} [LinearOrderedField α]
    (m : BertForSequenceClassification α) (mask : Nat → Nat → Bool) (inp : Input) :
    List (List α) × BertForSequenceClassification α :=
  (m.forward mask inp, m)

/-- Stateful view of the classification predict call. -/
noncomputable def BertForSequenceClassification.predictS
    (m : BertForSequenceClassification ℝ) (mask : Nat → Nat → Bool) (inp : Input) :
    List Nat × BertForSequenceClassification ℝ :=
  (m.predict mask inp, m)

/-- Stateful view of the labeling forward call. -/
def BertForSequenceLabeling.forwardS {α : Type} [LinearOrderedField α]
    (m : BertForSequenceLabeling α) (mask : Nat → Nat → Nat → Bool) (inp : Input) :
    List (List (List α)) × BertForSequenceLabeling α :=
  (m.forward mask inp, m)

/-- Stateful view of the labeling predict call. -/
noncomputable def BertForSequenceLabeling.predictS
    (m : BertForSequenceLabeling ℝ) (mask : Nat → Nat → Nat → Bool) (inp : Input) :
    List (List Nat) × BertForSequenceLabeling ℝ :=
  (m.predict mask inp, m)

/-- Stateful view of the QA forward call. -/
def BertForQuestionAnswering.forwardS {α : Type} [LinearOrderedField α]
    (m : BertForQuestionAnswering α) (inp : Input) :
    (List (List α) × List (List α)) × BertForQuestionAnswering α :=
  (m.forward inp, m)

/-- Stateful view of the QA predict call. -/
noncomputable def BertForQuestionAnswering.predictS
    (m : BertForQuestionAnswering ℝ) (inp : Input) :
    (List Nat × List Nat) × BertForQuestionAnswering ℝ :=
  (m.predict inp, m)

/-- Shape predicate: `x` is a `d1 × d2` matrix. -/
def Matrix2Wf {α : Type} (x : List (List α)) (d1 d2 : Nat) : Prop :=
  x.length = d1 ∧ ∀ r ∈ x, r.length = d2

/-- Shape predicate: `x` is a `d1 × d2 × d3` tensor. -/
def Matrix3Wf {α : Type} (x : List (List (List α))) (d1 d2 d3 : Nat) : Prop :=
  x.length = d1 ∧ ∀ r ∈ x, r.length = d2 ∧ ∀ v ∈ r, v.length = d3

/-- Well-formedness of a linear layer of given in/out dimensions. -/
def Linear.Wf {α : Type} (lin : Linear α) (inF outF : Nat) : Prop :=
  lin.weight.length = outF ∧ (∀ r ∈ lin.weight, r.length = inF) ∧ lin.bias.length = outF

/-- Well-formedness of an input triple of shape `(B, L)`. -/
def TripleWf (inp : Input) (B L : Nat) : Prop :=
  Matrix2Wf inp.1 B L ∧ Matrix2Wf inp.2.1 B L ∧ Matrix2Wf inp.2.2 B L

/-- Encoder contract on a given input: the per-token output has shape
`(B, L, hidden_size)` and the pooled output has shape `(B, hidden_size)`. -/
def BertModel.WfOn {α : Type} (bm : BertModel α) (inp : Input) (B L : Nat) : Prop :=
  Matrix3Wf (bm.apply inp.1 inp.2.1 inp.2.2).1 B L bm.hidden_size ∧
  Matrix2Wf (bm.apply inp.1 inp.2.1 inp.2.2).2 B bm.hidden_size

/-! Concrete fixtures used to instantiate the theorems: a batch of one
sequence of length two over an encoder with hidden size one, mirroring (at
smaller size) the demonstration input of the source file. -/

/-- Fixture input triple of shape `(1, 2)`. -/
def inpW : Input := ([[5, 6]], [[0, 1]], [[0, 0]])

/-- Fixture encoder: hidden size 1, per-token output `[[[0], [1]]]` of shape
`(1, 2, 1)` and pooled output `[[0]]` of shape `(1, 1)`. -/
def encW : BertModel ℝ where
  hidden_size := 1
  apply := fun _ _ _ => ([[[0], [1]]], [[0]])

/-- Fixture 2-unit linear layer for the QA head. -/
def linW2 : Linear ℝ := ⟨[[1], [-1]], [0, 0]⟩

/-- Fixture 1-unit linear layer for the classification and labeling heads. -/
def linW1 : Linear ℝ := ⟨[[1]], [0]⟩

/-- Fixture QA head in evaluation mode. -/
def qaW : BertForQuestionAnswering ℝ := ⟨encW, linW2, false⟩

/-- Fixture classification head with the degenerate `num_classes = 1`, in
evaluation mode. -/
def scW : BertForSequenceClassification ℝ := ⟨1, encW, linW1, false⟩

/-- Fixture labeling head with `num_classes = 1`, in evaluation mode. -/
def slW : BertForSequenceLabeling ℝ := ⟨1, encW, linW1, false⟩

/-! Helper lemmas about `argmax`. -/

theorem argmax_lt_length {α : Type} [LinearOrder α] {l : List α} (h : l ≠ []) :
    argmax l < l.length := by
  have hpos : 0 < l.length := List.length_pos.mpr h
  unfold argmax
  apply List.findIdx_lt_length_of_exists
  refine ⟨l.maximum_of_length_pos hpos, List.maximum_of_length_pos_mem hpos, ?_⟩
  simp [List.coe_maximum_of_length_pos]

theorem maximum_eq_getElem_argmax {α : Type} [LinearOrder α] {l : List α} (h : l ≠ []) :
    l.maximum = (l.get ⟨argmax l, argmax_lt_length h⟩ : WithBot α) := by
  have hb := argmax_lt_length h
  have hp := @List.findIdx_getElem α (fun x : α => decide (l.maximum ≤ (x : WithBot α))) l hb
  have h1 : l.maximum ≤ (l.get ⟨argmax l, hb⟩ : WithBot α) := of_decide_eq_true hp
  have h2 : (l.get ⟨argmax l, hb⟩ : WithBot α) ≤ l.maximum :=
    List.le_maximum_of_mem' (List.getElem_mem hb)
  exact le_antisymm h1 h2

theorem getElem_le_argmax {α : Type} [LinearOrder α] {l : List α} (h : l ≠ [])
    (j : Nat) (hj : j < l.length) :
    l.get ⟨j, hj⟩ ≤ l.get ⟨argmax l, argmax_lt_length h⟩ := by
  have h1 : (l.get ⟨j, hj⟩ : WithBot α) ≤ l.maximum :=
    List.le_maximum_of_mem' (List.getElem_mem hj)
  rw [maximum_eq_getElem_argmax h] at h1
  exact_mod_cast h1

theorem getElem_lt_of_lt_argmax {α : Type} [LinearOrder α] {l : List α} (h : l ≠ [])
    {j : Nat} (hj : j < argmax l) :
    l.get ⟨j, lt_trans hj (argmax_lt_length h)⟩ < l.get ⟨argmax l, argmax_lt_length h⟩ := by
  have hfalse := List.not_of_lt_findIdx
    (p := fun x : α => decide (l.maximum ≤ (x : WithBot α))) hj
  have hnle : ¬ (l.maximum ≤ (l.get ⟨j, lt_trans hj (argmax_lt_length h)⟩ : WithBot α)) :=
    of_decide_eq_false hfalse
  have hlt : (l.get ⟨j, lt_trans hj (argmax_lt_length h)⟩ : WithBot α) < l.maximum :=
    lt_of_not_le hnle
  rw [maximum_eq_getElem_argmax h] at hlt
  exact_mod_cast hlt

theorem argmax_eq_of {α : Type} [LinearOrder α] {l : List α} {k : Nat} (hk : k < l.length)
    (hmax : ∀ j (hj : j < l.length), l.get ⟨j, hj⟩ ≤ l.get ⟨k, hk⟩)
    (hfirst : ∀ j (hj : j < k), l.get ⟨j, lt_trans hj hk⟩ < l.get ⟨k, hk⟩) :
    argmax l = k := by
  have hne : l ≠ [] := List.ne_nil_of_length_pos (Nat.lt_of_le_of_lt (Nat.zero_le k) hk)
  rcases lt_trichotomy (argmax l) k with hlt | heq | hgt
  · exfalso
    have h1 := hfirst (argmax l) hlt
    have h2 := getElem_le_argmax hne k hk
    exact absurd h1 (not_lt_of_le h2)
  · exact heq
  · exfalso
    have hco : l.maximum = (l.get ⟨k, hk⟩ : WithBot α) := by
      rw [List.maximum_eq_coe_iff]
      refine ⟨List.getElem_mem hk, ?_⟩
      intro a ha
      rcases List.mem_iff_getElem.mp ha with ⟨i, hi, rfl⟩
      exact hmax i hi
    have hfalse := List.not_of_lt_findIdx
      (p := fun x : α => decide (l.maximum ≤ (x : WithBot α))) hgt
    exact of_decide_eq_false hfalse (le_of_eq hco)

theorem argmax_map_strictMono {α β : Type} [LinearOrder α] [LinearOrder β]
    {f : α → β} (hf : StrictMono f) (l : List α) :
    argmax (l.map f) = argmax l := by
  rcases eq_or_ne l [] with rfl | hne
  · rfl
  · have hk : argmax l < (l.map f).length := by
      rw [List.length_map]; exact argmax_lt_length hne
    apply argmax_eq_of hk
    · intro j hj
      have hj' : j < l.length := by rw [List.length_map] at hj; exact hj
      rw [List.get_eq_getElem, List.get_eq_getElem, List.getElem_map, List.getElem_map]
      exact hf.le_iff_le.mpr (getElem_le_argmax hne j hj')
    · intro j hj
      rw [List.get_eq_getElem, List.get_eq_getElem, List.getElem_map, List.getElem_map]
      exact hf (getElem_lt_of_lt_argmax hne hj)

theorem sum_map_exp_pos (l : List ℝ) (h : l ≠ []) : 0 < (l.map Real.exp).sum := by
  apply List.sum_pos
  · intro x hx
    rcases List.mem_map.mp hx with ⟨a, _, rfl⟩
    exact Real.exp_pos a
  · simp [h]

/-- Softmax is a strictly monotone transform of each row, so it never changes
the arg-max. -/
theorem argmax_softmax (l : List ℝ) : argmax (softmax l) = argmax l := by
  rcases eq_or_ne l [] with rfl | hne
  · rfl
  · have hS := sum_map_exp_pos l hne
    exact argmax_map_strictMono
      (f := fun x => Real.exp x / (l.map Real.exp).sum)
      (fun a b hab => by
        exact (div_lt_div_iff_of_pos_right hS).mpr (Real.exp_lt_exp.mpr hab)) l

/-! Helper lemmas about shapes and dropout. -/

theorem length_linearApply {α : Type} [LinearOrderedField α] {lin : Linear α} {inF outF : Nat}
    (h : lin.Wf inF outF) (v : List α) : (linearApply lin v).length = outF := by
  simp [linearApply, List.length_zip, h.1, h.2.2]

theorem length_dropoutVec {α : Type} [LinearOrderedField α] (p : α) (tr : Bool)
    (keep : Nat → Bool) (v : List α) : (dropoutVec p tr keep v).length = v.length := by
  simp [dropoutVec, List.enum_length]

theorem dropoutVec_eval {α : Type} [LinearOrderedField α] (p : α) (keep : Nat → Bool)
    (v : List α) : dropoutVec p false keep v = v := by
  simp [dropoutVec]

theorem scForward_shape {α : Type} [LinearOrderedField α]
    (m : BertForSequenceClassification α) (mask : Nat → Nat → Bool) (inp : Input)
    (B L : Nat) (henc : m.bert_model.WfOn inp B L)
    (hlin : m.linear.Wf m.bert_model.hidden_size m.num_classes) :
    Matrix2Wf (m.forward mask inp) B m.num_classes := by
  obtain ⟨-, hplen, -⟩ := henc
  constructor
  · simp [BertForSequenceClassification.forward, List.enum_length, hplen]
  · intro r hr
    rcases List.mem_map.mp hr with ⟨bv, -, rfl⟩
    exact length_linearApply hlin _

theorem slForward_shape {α : Type} [LinearOrderedField α]
    (m : BertForSequenceLabeling α) (mask : Nat → Nat → Nat → Bool) (inp : Input)
    (B L : Nat) (henc : m.bert_model.WfOn inp B L)
    (hlin : m.linear.Wf m.bert_model.hidden_size m.num_classes) :
    Matrix3Wf (m.forward mask inp) B L m.num_classes := by
  obtain ⟨⟨hslen, hsrow⟩, -⟩ := henc
  constructor
  · simp [BertForSequenceLabeling.forward, List.enum_length, hslen]
  · intro r hr
    rcases List.mem_map.mp hr with ⟨bt, hbt, rfl⟩
    have htoks : bt.2 ∈ (m.bert_model.apply inp.1 inp.2.1 inp.2.2).1 :=
      List.snd_mem_of_mem_enum hbt
    refine ⟨by simp [List.enum_length, (hsrow bt.2 htoks).1], ?_⟩
    intro v hv
    rcases List.mem_map.mp hv with ⟨tv, -, rfl⟩
    exact length_linearApply hlin _

theorem qaForwardAux_shape {α : Type} [LinearOrderedField α]
    (m : BertForQuestionAnswering α) (inp : Input) (B L : Nat)
    (henc : m.bert_model.WfOn inp B L) (c : Nat) :
    Matrix2Wf (((m.bert_model.apply inp.1 inp.2.1 inp.2.2).1.map
      (fun toks => toks.map (fun v => linearApply m.linear v))).map
        (fun toks => toks.map (fun r => r.getD c 0))) B L := by
  obtain ⟨⟨hslen, hsrow⟩, -⟩ := henc
  constructor
  · simp [hslen]
  · intro r hr
    rcases List.mem_map.mp hr with ⟨toks2, htoks2, rfl⟩
    rcases List.mem_map.mp htoks2 with ⟨toks, htoks, rfl⟩
    simp [(hsrow toks htoks).1]

theorem qaForward_shape {α : Type} [LinearOrderedField α]
    (m : BertForQuestionAnswering α) (inp : Input) (B L : Nat)
    (henc : m.bert_model.WfOn inp B L) :
    Matrix2Wf (m.forward inp).1 B L ∧ Matrix2Wf (m.forward inp).2 B L :=
  ⟨qaForwardAux_shape m inp B L henc 0, qaForwardAux_shape m inp B L henc 1⟩

/-! Helper lemmas connecting `predict` with bare `argmax`, and concrete
evaluations of the fixtures. -/

theorem scPredict_eq (m : BertForSequenceClassification ℝ) (mask : Nat → Nat → Bool)
    (inp : Input) : m.predict mask inp = (m.forward mask inp).map argmax := by
  simp [BertForSequenceClassification.predict, argmax_softmax]

theorem slPredict_eq (m : BertForSequenceLabeling ℝ) (mask : Nat → Nat → Nat → Bool)
    (inp : Input) :
    m.predict mask inp = (m.forward mask inp).map (fun toks => toks.map argmax) := by
  simp [BertForSequenceLabeling.predict, argmax_softmax]

theorem qaPredict_eq (m : BertForQuestionAnswering ℝ) (inp : Input) :
    m.predict inp = ((m.forward inp).1.map argmax, (m.forward inp).2.map argmax) := by
  simp [BertForQuestionAnswering.predict, argmax_softmax]

theorem argmax_pair_lt {α : Type} [LinearOrder α] {a b : α} (h : a < b) :
    argmax [a, b] = 1 := by
  apply argmax_eq_of (k := 1) (by norm_num)
  · intro j hj
    have hj2 : j < 2 := by simpa using hj
    interval_cases j
    · exact le_of_lt h
    · exact le_refl _
  · intro j hj
    interval_cases j
    exact h

theorem argmax_pair_ge {α : Type} [LinearOrder α] {a b : α} (h : b ≤ a) :
    argmax [a, b] = 0 := by
  apply argmax_eq_of (k := 0) (by norm_num)
  · intro j hj
    have hj2 : j < 2 := by simpa using hj
    interval_cases j
    · exact le_refl _
    · exact h
  · intro j hj
    exact absurd hj (Nat.not_lt_zero j)

theorem qaW_forward_eval : qaW.forward inpW = ([[0, 1]], [[0, -1]]) := by
  simp [BertForQuestionAnswering.forward, qaW, encW, inpW, linW2, linearApply, dot]

/-- Entry-level description of `argmax` behaviour on a list of rows: when the
prediction list is the row-wise `argmax`, each prediction is the position of
the first occurrence of the row's maximum. -/
theorem argmax_rows_spec (rows : List (List ℝ)) (pred : List Nat)
    (hpred : pred = rows.map argmax) (b : Nat) (row : List ℝ) (hb : b < rows.length)
    (hrow : rows.get ⟨b, hb⟩ = row) (hne : row ≠ []) :
    pred.getD b 0 = argmax row ∧
    (∀ j (hj : j < row.length),
      row.get ⟨j, hj⟩ ≤ row.get ⟨argmax row, argmax_lt_length hne⟩) ∧
    (∀ j (hj : j < argmax row),
      row.get ⟨j, lt_trans hj (argmax_lt_length hne)⟩ <
        row.get ⟨argmax row, argmax_lt_length hne⟩) := by
  refine ⟨?_, fun j hj => getElem_le_argmax hne j hj, fun j hj => getElem_lt_of_lt_argmax hne hj⟩
  subst hpred
  have hb' : b < (rows.map argmax).length := by
    rw [List.length_map]; exact hb
  rw [List.getD_eq_getElem _ _ hb', List.getElem_map, ← hrow]
  rfl

theorem getD_map {α β : Type} (f : α → β) (l : List α) (d : β) {i : Nat}
    (hi : i < l.length) : (l.map f).getD i d = f (l.get ⟨i, hi⟩) := by
  have hi' : i < (l.map f).length := by rw [List.length_map]; exact hi
  rw [List.getD_eq_getElem _ _ hi', List.getElem_map, List.get_eq_getElem]

theorem linearApply_two {α : Type} [LinearOrderedField α] {lin : Linear α} {inF : Nat}
    (h : lin.Wf inF 2) (v : List α) :
    linearApply lin v =
      [dot (lin.weight.getD 0 []) v + lin.bias.getD 0 0,
       dot (lin.weight.getD 1 []) v + lin.bias.getD 1 0] := by
  obtain ⟨hw, -, hb⟩ := h
  obtain ⟨w0, w1, hw'⟩ := List.length_eq_two.mp hw
  obtain ⟨b0, b1, hb'⟩ := List.length_eq_two.mp hb
  simp [linearApply, hw', hb']

/-! Claim theorems. -/

/-- C1: for every head variant and every input, the discrete selection made by
`predict` (arg-max applied after softmax over the relevant axis) is numerically
equivalent to applying arg-max directly to the raw `forward` scores over that
axis, softmax being a monotone transform along the reduced axis. -/
theorem predict_softmax_argmax_redundant :
    (∀ (m : BertForSequenceClassification ℝ) (mask : Nat → Nat → Bool) (inp : Input),
      m.predict mask inp = (m.forward mask inp).map argmax) ∧
    (∀ (m : BertForSequenceLabeling ℝ) (mask : Nat → Nat → Nat → Bool) (inp : Input),
      m.predict mask inp = (m.forward mask inp).map (fun toks => toks.map argmax)) ∧
    (∀ (m : BertForQuestionAnswering ℝ) (inp : Input),
      m.predict inp = ((m.forward inp).1.map argmax, (m.forward inp).2.map argmax)) :=
  ⟨scPredict_eq, slPredict_eq, qaPredict_eq⟩

/-- C2: the QA head's `predict` computes start and end indices independently and
applies no span-validity correction: there is a head and an input (a logit
configuration) for which the returned end index is strictly less than the
returned start index. -/
theorem qa_span_order_not_enforced :
    ∃ (m : BertForQuestionAnswering ℝ) (inp : Input) (s e : Nat),
      m.predict inp = ([s], [e]) ∧ e < s := by
  refine ⟨qaW, inpW, 1, 0, ?_, Nat.zero_lt_one⟩
  rw [qaPredict_eq, qaW_forward_eval]
  simp [argmax_pair_lt (by norm_num : (0 : ℝ) < 1),
    argmax_pair_ge (by norm_num : (-1 : ℝ) ≤ 0)]

/-- C3: for every batch element, the QA head's `predict` returns as start index
the position of the maximum of that element's start-logit row (analogously for
the end index), and ties are broken by the lowest index (first occurrence). -/
theorem qa_predict_argmax_first_occurrence (m : BertForQuestionAnswering ℝ) (inp : Input) :
    (∀ (b : Nat) (row : List ℝ) (hb : b < (m.forward inp).1.length),
      (m.forward inp).1.get ⟨b, hb⟩ = row → ∀ hne : row ≠ [],
      (m.predict inp).1.getD b 0 = argmax row ∧
      (∀ j (hj : j < row.length),
        row.get ⟨j, hj⟩ ≤ row.get ⟨argmax row, argmax_lt_length hne⟩) ∧
      (∀ j (hj : j < argmax row),
        row.get ⟨j, lt_trans hj (argmax_lt_length hne)⟩ <
          row.get ⟨argmax row, argmax_lt_length hne⟩)) ∧
    (∀ (b : Nat) (row : List ℝ) (hb : b < (m.forward inp).2.length),
      (m.forward inp).2.get ⟨b, hb⟩ = row → ∀ hne : row ≠ [],
      (m.predict inp).2.getD b 0 = argmax row ∧
      (∀ j (hj : j < row.length),
        row.get ⟨j, hj⟩ ≤ row.get ⟨argmax row, argmax_lt_length hne⟩) ∧
      (∀ j (hj : j < argmax row),
        row.get ⟨j, lt_trans hj (argmax_lt_length hne)⟩ <
          row.get ⟨argmax row, argmax_lt_length hne⟩)) := by
  constructor
  · intro b row hb hrow hne
    exact argmax_rows_spec (m.forward inp).1 (m.predict inp).1
      (congrArg Prod.fst (qaPredict_eq m inp)) b row hb hrow hne
  · intro b row hb hrow hne
    exact argmax_rows_spec (m.forward inp).2 (m.predict inp).2
      (congrArg Prod.snd (qaPredict_eq m inp)) b row hb hrow hne

/-- Witness for C3 at the fixture QA head: batch element 0 has start-logit row
`[0, 1]`, whose first-occurrence arg-max the prediction returns. -/
theorem qa_predict_argmax_first_occurrence_witness :
    (qaW.predict inpW).1.getD 0 0 = argmax [(0 : ℝ), 1] :=
  (((qa_predict_argmax_first_occurrence qaW inpW).1 0 [(0 : ℝ), 1]
    (by simp [qaW_forward_eval])
    (by simp [qaW_forward_eval])
    (by simp)).1)

/-- C8: with dropout disabled (evaluation mode), `forward` is a deterministic
function of the head's parameters and its input: the classification and
labeling heads give mask-independent output, and the QA head's output depends
only on its encoder and linear parameters. -/
theorem forward_deterministic_eval_mode :
    (∀ (m : BertForSequenceClassification ℝ) (mask₁ mask₂ : Nat → Nat → Bool) (inp : Input),
      m.training = false → m.forward mask₁ inp = m.forward mask₂ inp) ∧
    (∀ (m : BertForSequenceLabeling ℝ) (mask₁ mask₂ : Nat → Nat → Nat → Bool) (inp : Input),
      m.training = false → m.forward mask₁ inp = m.forward mask₂ inp) ∧
    (∀ (m m' : BertForQuestionAnswering ℝ) (inp : Input),
      m.bert_model = m'.bert_model → m.linear = m'.linear →
        m.forward inp = m'.forward inp) := by
  refine ⟨?_, ?_, ?_⟩
  · intro m mask₁ mask₂ inp h
    simp [BertForSequenceClassification.forward, h, dropoutVec_eval]
  · intro m mask₁ mask₂ inp h
    simp [BertForSequenceLabeling.forward, h, dropoutVec_eval]
  · intro m m' inp h1 h2
    simp [BertForQuestionAnswering.forward, h1, h2]

/-- Witness for C8 at the fixture heads (all in evaluation mode), with two
different dropout masks. -/
theorem forward_deterministic_eval_mode_witness :
    scW.forward (fun _ _ => true) inpW = scW.forward (fun _ _ => false) inpW ∧
    slW.forward (fun _ _ _ => true) inpW = slW.forward (fun _ _ _ => false) inpW ∧
    qaW.forward inpW = qaW.forward inpW :=
  ⟨forward_deterministic_eval_mode.1 scW (fun _ _ => true) (fun _ _ => false) inpW rfl,
   forward_deterministic_eval_mode.2.1 slW (fun _ _ _ => true) (fun _ _ _ => false) inpW rfl,
   forward_deterministic_eval_mode.2.2 qaW qaW inpW rfl rfl⟩

/-- C9: `forward` and `predict`, viewed as stateful method calls, leave the
head's own state (weights, bias, encoder, flags) unchanged: the post-call head
equals the pre-call head for every variant. -/
theorem forward_predict_preserve_state :
    (∀ (m : BertForSequenceClassification ℝ) (mask : Nat → Nat → Bool) (inp : Input),
      (m.forwardS mask inp).2 = m ∧ (m.predictS mask inp).2 = m) ∧
    (∀ (m : BertForSequenceLabeling ℝ) (mask : Nat → Nat → Nat → Bool) (inp : Input),
      (m.forwardS mask inp).2 = m ∧ (m.predictS mask inp).2 = m) ∧
    (∀ (m : BertForQuestionAnswering ℝ) (inp : Input),
      (m.forwardS inp).2 = m ∧ (m.predictS inp).2 = m) :=
  ⟨fun _ _ _ => ⟨rfl, rfl⟩, fun _ _ _ => ⟨rfl, rfl⟩, fun _ _ => ⟨rfl, rfl⟩⟩

/-- C10: every head constructor unconditionally invokes the encoder's
checkpoint-loading operation with the given path — also when the caller omits
the argument and the default `none` is passed — and the resulting encoder is
exactly what the collaborator's loader returned. -/
theorem constructors_always_load_checkpoint :
    (∀ (lib : EncoderLib ℝ) (nc : Nat) (config : BertConfig) (path : Option String),
      EncoderCall.fromTfCheckpoint path ∈
        (BertForSequenceClassification.build lib nc config path).2 ∧
      (BertForSequenceClassification.build lib nc config path).1.bert_model =
        lib.fromTfCheckpoint (lib.ofConfig config) path) ∧
    (∀ (lib : EncoderLib ℝ) (nc : Nat) (config : BertConfig) (path : Option String),
      EncoderCall.fromTfCheckpoint path ∈
        (BertForSequenceLabeling.build lib nc config path).2 ∧
      (BertForSequenceLabeling.build lib nc config path).1.bert_model =
        lib.fromTfCheckpoint (lib.ofConfig config) path) ∧
    (∀ (lib : EncoderLib ℝ) (config : BertConfig) (path : Option String),
      EncoderCall.fromTfCheckpoint path ∈
        (BertForQuestionAnswering.build lib config path).2 ∧
      (BertForQuestionAnswering.build lib config path).1.bert_model =
        lib.fromTfCheckpoint (lib.ofConfig config) path) ∧
    (∀ (lib : EncoderLib ℝ) (nc : Nat) (config : BertConfig),
      EncoderCall.fromTfCheckpoint none ∈
        (BertForSequenceClassification.build lib nc config).2 ∧
      EncoderCall.fromTfCheckpoint none ∈
        (BertForSequenceLabeling.build lib nc config).2 ∧
      EncoderCall.fromTfCheckpoint none ∈
        (BertForQuestionAnswering.build lib config).2) := by
  refine ⟨?_, ?_, ?_, ?_⟩
  · intro lib nc config path
    exact ⟨by simp [BertForSequenceClassification.build], rfl⟩
  · intro lib nc config path
    exact ⟨by simp [BertForSequenceLabeling.build], rfl⟩
  · intro lib config path
    exact ⟨by simp [BertForQuestionAnswering.build], rfl⟩
  · intro lib nc config
    exact ⟨by simp [BertForSequenceClassification.build],
      by simp [BertForSequenceLabeling.build],
      by simp [BertForQuestionAnswering.build]⟩

/-- C4: the QA head's `forward` takes the encoder's per-token representation,
applies a linear projection with exactly 2 output units and no dropout in
either mode, and returns the two channel slices of that projection as
start-logits and end-logits, each of shape `(B, L)`. -/
theorem qa_forward_two_unit_projection_no_dropout
    (m : BertForQuestionAnswering ℝ) (inp : Input) (B L : Nat)
    (hin : TripleWf inp B L) (henc : m.bert_model.WfOn inp B L)
    (hlin : m.linear.Wf m.bert_model.hidden_size 2) :
    Matrix2Wf (m.forward inp).1 B L ∧ Matrix2Wf (m.forward inp).2 B L ∧
    (∀ tr : Bool,
      BertForQuestionAnswering.forward ⟨m.bert_model, m.linear, tr⟩ inp = m.forward inp) ∧
    (∀ b t (hb : b < B) (ht : t < L),
      ((m.forward inp).1.getD b []).getD t 0 =
        dot (m.linear.weight.getD 0 [])
          (((m.bert_model.apply inp.1 inp.2.1 inp.2.2).1.getD b []).getD t []) +
          m.linear.bias.getD 0 0 ∧
      ((m.forward inp).2.getD b []).getD t 0 =
        dot (m.linear.weight.getD 1 [])
          (((m.bert_model.apply inp.1 inp.2.1 inp.2.2).1.getD b []).getD t []) +
          m.linear.bias.getD 1 0) := by
  obtain ⟨⟨hslen, hsrow⟩, hpooled⟩ := henc
  refine ⟨qaForwardAux_shape m inp B L ⟨⟨hslen, hsrow⟩, hpooled⟩ 0,
          qaForwardAux_shape m inp B L ⟨⟨hslen, hsrow⟩, hpooled⟩ 1,
          fun tr => rfl, ?_⟩
  intro b t hb ht
  have hb' : b < (m.bert_model.apply inp.1 inp.2.1 inp.2.2).1.length := by
    rw [hslen]; exact hb
  have hmem : (m.bert_model.apply inp.1 inp.2.1 inp.2.2).1.get ⟨b, hb'⟩ ∈
      (m.bert_model.apply inp.1 inp.2.1 inp.2.2).1 := by
    rw [List.get_eq_getElem]; exact List.getElem_mem hb'
  have ht' : t < ((m.bert_model.apply inp.1 inp.2.1 inp.2.2).1.get ⟨b, hb'⟩).length := by
    rw [(hsrow _ hmem).1]; exact ht
  have hseqb : (m.bert_model.apply inp.1 inp.2.1 inp.2.2).1.getD b [] =
      (m.bert_model.apply inp.1 inp.2.1 inp.2.2).1.get ⟨b, hb'⟩ :=
    List.getD_eq_getElem _ _ hb'
  have hseqbt : ((m.bert_model.apply inp.1 inp.2.1 inp.2.2).1.get ⟨b, hb'⟩).getD t [] =
      ((m.bert_model.apply inp.1 inp.2.1 inp.2.2).1.get ⟨b, hb'⟩).get ⟨t, ht'⟩ :=
    List.getD_eq_getElem _ _ ht'
  have hfwd1 : (m.forward inp).1 =
      (m.bert_model.apply inp.1 inp.2.1 inp.2.2).1.map
        (fun toks => toks.map (fun v => (linearApply m.linear v).getD 0 0)) := by
    simp [BertForQuestionAnswering.forward, List.map_map, Function.comp]
  have hfwd2 : (m.forward inp).2 =
      (m.bert_model.apply inp.1 inp.2.1 inp.2.2).1.map
        (fun toks => toks.map (fun v => (linearApply m.linear v).getD 1 0)) := by
    simp [BertForQuestionAnswering.forward, List.map_map, Function.comp]
  constructor
  · rw [hfwd1, getD_map _ _ _ hb', getD_map _ _ _ ht', hseqb, hseqbt,
      linearApply_two hlin]
    rfl
  · rw [hfwd2, getD_map _ _ _ hb', getD_map _ _ _ ht', hseqb, hseqbt,
      linearApply_two hlin]
    rfl

/-- Witness for C4 at the fixture QA head: the start-logit entry of batch 0,
token 1 equals the channel-0 projection of that token's representation. -/
theorem qa_forward_two_unit_projection_no_dropout_witness :
    ((qaW.forward inpW).1.getD 0 []).getD 1 0 =
      dot (qaW.linear.weight.getD 0 [])
        (((qaW.bert_model.apply inpW.1 inpW.2.1 inpW.2.2).1.getD 0 []).getD 1 []) +
        qaW.linear.bias.getD 0 0 :=
  ((qa_forward_two_unit_projection_no_dropout qaW inpW 1 2
    (by simp [TripleWf, Matrix2Wf, inpW])
    (by simp [BertModel.WfOn, Matrix3Wf, Matrix2Wf, qaW, encW, inpW])
    (by simp [Linear.Wf, qaW, linW2, encW])).2.2.2 0 1
    (by norm_num) (by norm_num)).1

/-- C5: for every valid `(B, L)` input and every `num_classes ≥ 1` (including
the degenerate `num_classes = 1`), the classification head's `forward`, taken
from the pooled representation, has shape `(B, num_classes)` and its `predict`
has shape `(B,)`. -/
theorem sc_forward_predict_shapes (m : BertForSequenceClassification ℝ)
    (mask : Nat → Nat → Bool) (inp : Input) (B L : Nat)
    (hnc : 1 ≤ m.num_classes) (hin : TripleWf inp B L)
    (henc : m.bert_model.WfOn inp B L)
    (hlin : m.linear.Wf m.bert_model.hidden_size m.num_classes) :
    Matrix2Wf (m.forward mask inp) B m.num_classes ∧
    (m.predict mask inp).length = B := by
  refine ⟨scForward_shape m mask inp B L henc hlin, ?_⟩
  rw [scPredict_eq, List.length_map]
  exact (scForward_shape m mask inp B L henc hlin).1

/-- Witness for C5 at the fixture classification head, which has the degenerate
`num_classes = 1`. -/
theorem sc_forward_predict_shapes_witness :
    Matrix2Wf (scW.forward (fun _ _ => true) inpW) 1 1 ∧
    (scW.predict (fun _ _ => true) inpW).length = 1 :=
  sc_forward_predict_shapes scW (fun _ _ => true) inpW 1 2
    (by norm_num [scW])
    (by simp [TripleWf, Matrix2Wf, inpW])
    (by simp [BertModel.WfOn, Matrix3Wf, Matrix2Wf, scW, encW, inpW])
    (by simp [Linear.Wf, scW, linW1, encW])

/-- C6: for every valid `(B, L)` input, the labeling head's `forward`, taken
from the full per-token representation, has shape `(B, L, num_classes)` and its
`predict` has shape `(B, L)`. -/
theorem sl_forward_predict_shapes (m : BertForSequenceLabeling ℝ)
    (mask : Nat → Nat → Nat → Bool) (inp : Input) (B L : Nat)
    (hin : TripleWf inp B L) (henc : m.bert_model.WfOn inp B L)
    (hlin : m.linear.Wf m.bert_model.hidden_size m.num_classes) :
    Matrix3Wf (m.forward mask inp) B L m.num_classes ∧
    Matrix2Wf (m.predict mask inp) B L := by
  have hf := slForward_shape m mask inp B L henc hlin
  refine ⟨hf, ?_, ?_⟩
  · rw [slPredict_eq, List.length_map]
    exact hf.1
  · intro r hr
    rw [slPredict_eq] at hr
    rcases List.mem_map.mp hr with ⟨toks, htoks, rfl⟩
    rw [List.length_map]
    exact (hf.2 toks htoks).1

/-- Witness for C6 at the fixture labeling head. -/
theorem sl_forward_predict_shapes_witness :
    Matrix3Wf (slW.forward (fun _ _ _ => true) inpW) 1 2 1 ∧
    Matrix2Wf (slW.predict (fun _ _ _ => true) inpW) 1 2 :=
  sl_forward_predict_shapes slW (fun _ _ _ => true) inpW 1 2
    (by simp [TripleWf, Matrix2Wf, inpW])
    (by simp [BertModel.WfOn, Matrix3Wf, Matrix2Wf, slW, encW, inpW])
    (by simp [Linear.Wf, slW, linW1, encW])

/-- C7: for every valid `(B, L)` input, the QA head's `forward` returns two
tensors of shape `(B, L)` and its `predict` returns two index vectors of shape
`(B,)`. -/
theorem qa_forward_predict_shapes (m : BertForQuestionAnswering ℝ) (inp : Input)
    (B L : Nat) (hin : TripleWf inp B L) (henc : m.bert_model.WfOn inp B L) :
    Matrix2Wf (m.forward inp).1 B L ∧ Matrix2Wf (m.forward inp).2 B L ∧
    (m.predict inp).1.length = B ∧ (m.predict inp).2.length = B := by
  have hf := qaForward_shape m inp B L henc
  refine ⟨hf.1, hf.2, ?_, ?_⟩
  · rw [qaPredict_eq]
    simp [List.length_map, hf.1.1]
  · rw [qaPredict_eq]
    simp [List.length_map, hf.2.1]

/-- Witness for C7 at the fixture QA head. -/
theorem qa_forward_predict_shapes_witness :
    Matrix2Wf (qaW.forward inpW).1 1 2 ∧ Matrix2Wf (qaW.forward inpW).2 1 2 ∧
    (qaW.predict inpW).1.length = 1 ∧ (qaW.predict inpW).2.length = 1 :=
  qa_forward_predict_shapes qaW inpW 1 2
    (by simp [TripleWf, Matrix2Wf, inpW])
    (by simp [BertModel.WfOn, Matrix3Wf, Matrix2Wf, qaW, encW, inpW])

end BertModels
